import Mathlib

/-!
Shallow embedding of the Binance trading helper (api.py, main.py, util.py).
Floats are modelled as exact rationals; Python float infinity on the upper
side of a band is modelled as the top element of WithTop ℚ.
-/

namespace Bth

/-- Sell strategy enum from util.py. -/
inductive SellType
| LIMIT
| MARKET
| HYBRID
deriving DecidableEq, Repr

/-- PERCENT_PRICE filter fields used by api.py. -/
structure PercentPrice where
  multiplierUp : ℚ
  multiplierDown : ℚ
deriving DecidableEq, Repr

/-- PRICE_FILTER fields used by api.py. -/
structure PriceFilter where
  minPrice : ℚ
  maxPrice : ℚ
deriving DecidableEq, Repr

/-- LOT_SIZE / MARKET_LOT_SIZE fields used by api.py. -/
structure LotFilter where
  minQty : ℚ
  maxQty : ℚ
deriving DecidableEq, Repr

/-- MIN_NOTIONAL fields used by api.py. -/
structure MinNotional where
  minNotional : ℚ
  applyToMarket : Bool
deriving DecidableEq, Repr

/-- The pair filter dictionary `self.pfilt` of BinanceAPI: each named filter
is present or absent. -/
structure Filters where
  percentPrice : Option PercentPrice
  priceFilter : Option PriceFilter
  lotSize : Option LotFilter
  marketLotSize : Option LotFilter
  minNotional : Option MinNotional
deriving DecidableEq, Repr

/-- Upper price/quantity bounds may be Python float infinity. -/
abbrev QInf := WithTop ℚ

/-- Local variable `dnlimit` of BinanceAPI.price_bound. -/
def dnlimit (f : Filters) (avg : ℚ) : ℚ :=
  match f.percentPrice with
  | some pp => avg * pp.multiplierDown
  | none => 0

/-- Local variable `uplimit` of BinanceAPI.price_bound (starts at +inf). -/
def uplimit (f : Filters) (avg : ℚ) : QInf :=
  match f.percentPrice with
  | some pp => ((avg * pp.multiplierUp : ℚ) : QInf)
  | none => ⊤

/-- Local variable `dnflimit` of BinanceAPI.price_bound. -/
def dnflimit (f : Filters) : ℚ :=
  match f.priceFilter with
  | some pf => pf.minPrice
  | none => 0

/-- Local variable `upflimit` of BinanceAPI.price_bound (starts at +inf). -/
def upflimit (f : Filters) : QInf :=
  match f.priceFilter with
  | some pf => (pf.maxPrice : QInf)
  | none => ⊤

/-- BinanceAPI.price_bound: `max(1.05 * dnlimit, dnflimit), min(0.95 * uplimit, upflimit)`. -/
def price_bound (f : Filters) (avg : ℚ) : ℚ × QInf :=
  (max ((21 / 20 : ℚ) * dnlimit f avg) (dnflimit f),
   min (((19 / 20 : ℚ) : QInf) * uplimit f avg) (upflimit f))

/-- BinanceAPI.qty_bound: notional lower bound combined with the governing
lot filter (`MARKET_LOT_SIZE` for market orders when present, else `LOT_SIZE`). -/
def qty_bound (f : Filters) (price : ℚ) (market : Bool) : ℚ × QInf :=
  let not_lim : ℚ :=
    match f.minNotional with
    | some filt =>
      if market && filt.applyToMarket || !market then filt.minNotional / price * (21 / 20 : ℚ)
      else 0
    | none => 0
  match market, f.marketLotSize with
  | true, some filt => (max filt.minQty not_lim, (filt.maxQty : QInf))
  | _, _ =>
    match f.lotSize with
    | some filt => (max filt.minQty not_lim, (filt.maxQty : QInf))
    | none => (0, ⊤)

/-- The lot filter that governs the quantity band in qty_bound. -/
def governingLot (f : Filters) (market : Bool) : Option LotFilter :=
  match market, f.marketLotSize with
  | true, some filt => some filt
  | _, _ => f.lotSize

/-- Result of a MarketManager.lock call: success, the CException raised when
the lock is already taken, or InvalidPair for an unknown symbol. -/
inductive LockResult
| ok
| alreadyLocked
| invalidPair
deriving DecidableEq, Repr

/-- MarketManager.lock: reject when locked, reject unknown symbols, otherwise
take the lock.  Returns the call result and the new lock flag. -/
def lock (pairs : List String) (locked : Bool) (bcoin : String) : LockResult × Bool :=
  if locked then (LockResult.alreadyLocked, locked)
  else if bcoin ∈ pairs then (LockResult.ok, true)
  else (LockResult.invalidPair, locked)

/-- Run a sequence of MarketManager.lock calls, threading the lock flag. -/
def runLocks (pairs : List String) : Bool → List String → List LockResult × Bool
  | locked, [] => ([], locked)
  | locked, s :: rest =>
    let r := lock pairs locked s
    let rs := runLocks pairs r.2 rest
    (r.1 :: rs.1, rs.2)

/-- The after-buy data of MarketManager: bought qty, mean buy price, target
sell price and stop price. -/
structure Position where
  bqty : ℚ
  bprice : ℚ
  tprice : ℚ
  sprice : ℚ
deriving DecidableEq, Repr

/-- MarketManager.start: after a successful buy of bqty at mean price bprice,
derive the target and stop prices from the configured percentages. -/
def startPosition (profit stop bqty bprice : ℚ) : Position :=
  { bqty := bqty, bprice := bprice,
    tprice := (1 + profit / 100) * bprice,
    sprice := (1 + stop / 100) * bprice }

/-- Python min of a float and a possibly infinite float. -/
def minQT (a : ℚ) (b : QInf) : ℚ :=
  match b with
  | none => a
  | some q => min a q

/-- MarketManager.check_sell_eligibility: clip tprice (and raise sprice in the
OCO case) to the price band, then check bqty against the quantity band.
Returns the mutated position and whether the check passed (False models the
CException raised on a bounds violation). -/
def check_sell_eligibility (f : Filters) (st : SellType) (use_oco : Bool)
    (avg : ℚ) (pos : Position) : Position × Bool :=
  if st = SellType.MARKET then
    let lh := qty_bound f avg true
    (pos, decide (lh.1 ≤ pos.bqty ∧ (pos.bqty : QInf) ≤ lh.2))
  else
    let pb := price_bound f avg
    let tp := minQT pos.tprice pb.2
    let lh := qty_bound f tp false
    if use_oco then
      let sp := max pos.sprice pb.1
      let low := (qty_bound f sp false).1
      ({ pos with tprice := tp, sprice := sp },
       decide (low ≤ pos.bqty ∧ (pos.bqty : QInf) ≤ lh.2))
    else
      ({ pos with tprice := tp },
       decide (lh.1 ≤ pos.bqty ∧ (pos.bqty : QInf) ≤ lh.2))

/-- An order placed by MarketManager.sell_coins_limit. -/
inductive PlacedOrder
| oco (qty tprice sprice : ℚ)
| limit (qty tprice : ℚ)
deriving DecidableEq, Repr

/-- MarketManager.sell_coins_limit: place an OCO order when use_oco is set,
otherwise a plain limit sell, always for the full remaining quantity at the
current target price. -/
def sell_coins_limit (use_oco : Bool) (pos : Position) : PlacedOrder :=
  if use_oco then PlacedOrder.oco pos.bqty pos.tprice pos.sprice
  else PlacedOrder.limit pos.bqty pos.tprice

/-- Price at which a placed order sells. -/
def orderPrice : PlacedOrder → ℚ
  | PlacedOrder.oco _ t _ => t
  | PlacedOrder.limit _ t => t

/-- Quantity a placed order sells. -/
def orderQty : PlacedOrder → ℚ
  | PlacedOrder.oco q _ _ => q
  | PlacedOrder.limit q _ => q

/-- The trigger condition of the MARKET/HYBRID branch of
MarketManager.sell_coins: `lprice > self.tprice or lprice < self.sprice`. -/
def sellTrigger (pos : Position) (lprice : ℚ) : Prop :=
  lprice > pos.tprice ∨ lprice < pos.sprice

instance (pos : Position) (lprice : ℚ) : Decidable (sellTrigger pos lprice) := by
  unfold sellTrigger
  infer_instance

/-- The MARKET/HYBRID branch of MarketManager.sell_coins over a finite prefix
of the aggregated-trade price stream: repeated prices are skipped, and the
first fresh price meeting the trigger fires a market sell of the full
remaining quantity (returned); otherwise no sell is fired. -/
def sell_coins (pos : Position) : ℚ → List ℚ → Option ℚ
  | _, [] => none
  | lprice, p :: rest =>
    if p = lprice then sell_coins pos lprice rest
    else if sellTrigger pos p then some pos.bqty
    else sell_coins pos p rest

/-- A quantity lies in a quantity band. -/
def inBand (b : ℚ × QInf) (q : ℚ) : Prop :=
  b.1 ≤ q ∧ (q : QInf) ≤ b.2

instance (b : ℚ × QInf) (q : ℚ) : Decidable (inBand b q) := by
  unfold inBand
  infer_instance

/-- The mutable MarketManager state that bailout reads. -/
structure MState where
  allow_bailout : Bool
  oid : Nat
  bqty : ℚ
deriving DecidableEq, Repr

/-- Outcome of MarketManager.bailout. -/
inductive BailoutOutcome
| noop
| cancelFailed
| sold (qty : ℚ)
deriving DecidableEq, Repr

/-- MarketManager.cancel_limit: the cancel API call either fails (none: the
CException propagates) or returns the executed quantity, which is subtracted
from the remaining quantity. -/
def cancel_limit (st : MState) (resp : Option ℚ) : Option MState :=
  match resp with
  | none => none
  | some qty => some { st with bqty := st.bqty - qty }

/-- MarketManager.bailout: no-op unless bailout is allowed; cancel an
outstanding order first (a failed cancel aborts with no market sell), then
market-sell the remaining quantity. -/
def bailout (st : MState) (resp : Option ℚ) : BailoutOutcome :=
  if !st.allow_bailout then BailoutOutcome.noop
  else if st.oid ≠ 0 then
    match cancel_limit st resp with
    | none => BailoutOutcome.cancelFailed
    | some st2 => BailoutOutcome.sold st2.bqty
  else BailoutOutcome.sold st.bqty

/-- Errors raised inside BinanceAPI.market_order_status: Python float division
by zero in the fill loop, or the CException on a zero average fill price. -/
inductive MOError
| divByZero
| zeroAvgPrice
deriving DecidableEq, Repr

/-- The fill loop of BinanceAPI.market_order_status: accumulate
`price * qty / bqty` over the fills. -/
def fills_avg (bqty : ℚ) (fills : List (ℚ × ℚ)) : ℚ :=
  fills.foldl (fun acc pq => acc + pq.1 * pq.2 / bqty) 0

/-- BinanceAPI.market_order_status: return the executed quantity and the
average fill price, raising when the average price computes to zero (and
modelling Python's ZeroDivisionError when bqty is zero with fills present). -/
def market_order_status (bqty : ℚ) (fills : List (ℚ × ℚ)) :
    Except MOError (ℚ × ℚ) :=
  if bqty = 0 ∧ fills ≠ [] then Except.error MOError.divByZero
  else if fills_avg bqty fills = 0 then Except.error MOError.zeroAvgPrice
  else Except.ok (bqty, fills_avg bqty fills)

/-- Numeric value of a decimal digit list (most significant first). -/
def digitsToNat (l : List Char) : Nat :=
  l.foldl (fun a c => 10 * a + (c.toNat - 48)) 0

/-- Split a decimal string into integer part, fractional part and the number
of fractional digits. -/
def decParts (s : String) : Nat × Nat × Nat :=
  let cs := s.data
  let ip := cs.takeWhile (fun c => c != '.')
  let fp := (cs.dropWhile (fun c => c != '.')).drop 1
  (digitsToNat ip, digitsToNat fp, fp.length)

/-- The `tsize` local of BinanceAPI.set_pair: the floor of the step-size
value scaled by 10 ^ p, computed exactly on the decimal string. -/
def tsize (s : String) (p : Nat) : Nat :=
  let parts := decParts s
  parts.1 * 10 ^ p + parts.2.1 * 10 ^ p / 10 ^ parts.2.2

/-- Little-endian decimal digits of a natural number (fuelled recursion). -/
def decDigitsAux : Nat → Nat → List Nat
  | _, 0 => []
  | 0, _ => []
  | fuel + 1, n + 1 => (n + 1) % 10 :: decDigitsAux fuel ((n + 1) / 10)

/-- Little-endian decimal digits of a natural number. -/
def decDigits (n : Nat) : List Nat := decDigitsAux n n

/-- Python `len(str(n))` for positive n: number of decimal digits. -/
def digitLen (n : Nat) : Nat := (decDigits n).length

/-- Python `len(str(n).rstrip('0'))` for positive n: digits left after
stripping trailing zeros, i.e. after dropping leading zeros of the
little-endian digit list. -/
def strippedLen (n : Nat) : Nat := ((decDigits n).dropWhile (· == 0)).length

/-- One tick-precision derivation of BinanceAPI.set_pair: when tsize is zero
the current default is retained, otherwise
`p - len(str(tsize)) + len(str(tsize).rstrip('0'))`. -/
def tickFrom (cur : Int) (s : String) (p : Nat) : Int :=
  let t := tsize s p
  if t = 0 then cur else (p : Int) - (digitLen t : Int) + (strippedLen t : Int)

/-- The tick sizes of BinanceAPI (price, lot, market lot), default 8 each. -/
structure TickSizes where
  price : Int
  lot : Int
  mkt_lot : Int
deriving DecidableEq, Repr

/-- The tick-derivation part of BinanceAPI.set_pair: derive the price tick
from PRICE_FILTER with the quote precision, the lot tick from LOT_SIZE with
the base precision, and the market-lot tick from MARKET_LOT_SIZE, falling
back to the lot tick when that filter is absent. -/
def set_pair_ticks (priceF lotF mlotF : Option String) (qprec bprec : Nat) :
    TickSizes :=
  let price := match priceF with | some s => tickFrom 8 s qprec | none => 8
  let lot := match lotF with | some s => tickFrom 8 s bprec | none => 8
  let mkt := match mlotF with | some s => tickFrom 8 s bprec | none => lot
  ⟨price, lot, mkt⟩

/-- Filter set with every filter absent. -/
def allNone : Filters := ⟨none, none, none, none, none⟩

/-- Filter set with only LOT_SIZE minQty 10, maxQty 100. -/
def lotTenFilters : Filters := ⟨none, none, some ⟨10, 100⟩, none, none⟩

/-- Filter set with PRICE_FILTER capping prices at 40 and a wide LOT_SIZE. -/
def capFilters : Filters := ⟨none, some ⟨0, 40⟩, some ⟨0, 1000⟩, none, none⟩

/-- Filter set with PERCENT_PRICE multiplierUp = multiplierDown = 1. -/
def pctOneFilters : Filters := ⟨some ⟨1, 1⟩, none, none, none, none⟩

end Bth

open Bth

/-- Once the lock flag is set, every further lock call fails with AlreadyLocked. -/
theorem runLocks_of_locked (pairs : List String) (l : List String) :
    runLocks pairs true l = (l.map (fun _ => LockResult.alreadyLocked), true) := by
  induction l with
  | nil => rfl
  | cons s rest ih => simp [runLocks, lock, ih]

/-- C2: starting unlocked, a run of lock calls made of unknown symbols, then a
tradable symbol, then anything at all, yields InvalidPair for each unknown
symbol (leaving the lock untaken), success for the first tradable symbol, and
AlreadyLocked for every later call, with the lock ending taken. -/
theorem C2_lock_sequence (pairs pre post : List String) (s : String)
    (hpre : ∀ x ∈ pre, x ∉ pairs) (hs : s ∈ pairs) :
    runLocks pairs false (pre ++ s :: post) =
      (pre.map (fun _ => LockResult.invalidPair) ++
        LockResult.ok :: post.map (fun _ => LockResult.alreadyLocked), true) := by
  induction pre with
  | nil =>
    simp [runLocks, lock, hs, runLocks_of_locked]
  | cons x xs ih =>
    have hx : x ∉ pairs := hpre x (by simp)
    have ihh := ih (fun y hy => hpre y (by simp [hy]))
    simp [runLocks, lock, hx, ihh]

/-- Witness for C2 at a concrete call sequence. -/
theorem C2_lock_sequence_w :
    (∀ x ∈ ["XXX"], x ∉ ["BTC", "ETH"]) ∧ "BTC" ∈ ["BTC", "ETH"] ∧
    runLocks ["BTC", "ETH"] false (["XXX"] ++ "BTC" :: ["ETH", "ZZZ"]) =
      ([LockResult.invalidPair, LockResult.ok, LockResult.alreadyLocked,
        LockResult.alreadyLocked], true) :=
  ⟨by decide, by decide,
   C2_lock_sequence ["BTC", "ETH"] ["XXX"] ["ETH", "ZZZ"] "BTC" (by decide) (by decide)⟩

/-- C7: bailout is a no-op when bailout is not allowed (no buy has completed);
with an outstanding order it first cancels it, subtracts exactly the order's
executed quantity from the remaining quantity, and market-sells the remainder;
a failed cancellation aborts the bailout with no market sell; and the claim's
example (qty 5 with 2 executed) sells exactly 3. -/
theorem C7_bailout :
    (∀ (st : MState) (resp : Option ℚ), st.allow_bailout = false →
      bailout st resp = BailoutOutcome.noop) ∧
    (∀ (st : MState) (q : ℚ), st.allow_bailout = true → st.oid ≠ 0 →
      bailout st (some q) = BailoutOutcome.sold (st.bqty - q)) ∧
    (∀ (st : MState), st.allow_bailout = true → st.oid ≠ 0 →
      bailout st none = BailoutOutcome.cancelFailed) ∧
    bailout ⟨true, 7, 5⟩ (some 2) = BailoutOutcome.sold 3 := by
  refine ⟨?_, ?_, ?_, ?_⟩
  · intro st resp h
    simp [bailout, h]
  · intro st q h hoid
    simp [bailout, cancel_limit, h, hoid]
  · intro st h hoid
    simp [bailout, cancel_limit, h, hoid]
  · show bailout ⟨true, 7, 5⟩ (some 2) = BailoutOutcome.sold 3
    norm_num [bailout, cancel_limit]

/-- Witness for C7 at concrete states. -/
theorem C7_bailout_w :
    ((⟨false, 0, 5⟩ : MState).allow_bailout = false ∧
      bailout ⟨false, 0, 5⟩ none = BailoutOutcome.noop) ∧
    ((⟨true, 3, 5⟩ : MState).allow_bailout = true ∧ (⟨true, 3, 5⟩ : MState).oid ≠ 0 ∧
      bailout ⟨true, 3, 5⟩ (some 2) = BailoutOutcome.sold ((5 : ℚ) - 2) ∧
      bailout ⟨true, 3, 5⟩ none = BailoutOutcome.cancelFailed) :=
  ⟨⟨rfl, C7_bailout.1 ⟨false, 0, 5⟩ none rfl⟩,
   ⟨rfl, by decide, C7_bailout.2.1 ⟨true, 3, 5⟩ 2 rfl (by decide),
    C7_bailout.2.2.1 ⟨true, 3, 5⟩ rfl (by decide)⟩⟩

/-- C9: for every positive price and filter combination, the low end of the
quantity band is at least the minQty of the governing lot filter
(MARKET_LOT_SIZE for market orders when present, otherwise LOT_SIZE). -/
theorem C9_qty_low_ge_min (f : Filters) (price : ℚ) (market : Bool)
    (filt : LotFilter) (hp : 0 < price) (hg : governingLot f market = some filt) :
    filt.minQty ≤ (qty_bound f price market).1 := by
  unfold governingLot at hg
  unfold qty_bound
  cases market with
  | true =>
    cases hml : f.marketLotSize with
    | some m =>
      rw [hml] at hg
      simp at hg
      subst hg
      simp [le_max_left]
    | none =>
      rw [hml] at hg
      simp at hg
      cases hls : f.lotSize with
      | some l =>
        rw [hls] at hg
        injection hg with hg
        subst hg
        simp [le_max_left]
      | none =>
        rw [hls] at hg
        exact absurd hg (by simp)
  | false =>
    simp at hg
    cases hls : f.lotSize with
    | some l =>
      rw [hls] at hg
      injection hg with hg
      subst hg
      cases f.marketLotSize <;> simp [le_max_left]
    | none =>
      rw [hls] at hg
      exact absurd hg (by simp)

/-- Witness for C9 at a concrete filter set. -/
theorem C9_qty_low_ge_min_w :
    (0 : ℚ) < 1 ∧ governingLot lotTenFilters false = some ⟨10, 100⟩ ∧
    (10 : ℚ) ≤ (qty_bound lotTenFilters 1 false).1 :=
  ⟨by decide, by decide,
   C9_qty_low_ge_min lotTenFilters 1 false ⟨10, 100⟩ (by decide) (by decide)⟩

/-- A stream whose fresh prices all stay between stop and target never fires. -/
theorem sell_coins_none_of_in_range (pos : Position) (lprice : ℚ) (prices : List ℚ)
    (h : ∀ p ∈ prices, pos.sprice ≤ p ∧ p ≤ pos.tprice) :
    sell_coins pos lprice prices = none := by
  induction prices generalizing lprice with
  | nil => rfl
  | cons p rest ih =>
    have hp := h p (by simp)
    have hrest : ∀ q ∈ rest, pos.sprice ≤ q ∧ q ≤ pos.tprice :=
      fun q hq => h q (by simp [hq])
    by_cases hpl : p = lprice
    · simp [sell_coins, hpl, ih lprice hrest]
    · have htr : ¬ sellTrigger pos p := by
        unfold sellTrigger
        push_neg
        exact ⟨hp.2, hp.1⟩
    
      simp [sell_coins, hpl, htr, ih p hrest]

/-- C4: in the MARKET sell loop, no price between the stop and the target
triggers a sell; the first fresh price beyond either limit fires an immediate
market sell of the full remaining quantity; and for a buy of 2 units at mean
price 50 with profit 10 percent and stop -5 percent, a trade at 56 sells the
full 2 units, a trade at 40 sells them too, and a trade at 52 sells nothing. -/
theorem C4_market_sell_loop :
    (∀ (pos : Position) (p : ℚ), pos.sprice ≤ p → p ≤ pos.tprice → ¬ sellTrigger pos p) ∧
    (∀ (pos : Position) (lprice p : ℚ) (rest : List ℚ),
      p ≠ lprice → sellTrigger pos p →
      sell_coins pos lprice (p :: rest) = some pos.bqty) ∧
    (∀ (pos : Position) (lprice : ℚ) (prices : List ℚ),
      (∀ p ∈ prices, pos.sprice ≤ p ∧ p ≤ pos.tprice) →
      sell_coins pos lprice prices = none) ∧
    (sell_coins (startPosition 10 (-5) 2 50) 0 [56] = some 2 ∧
     sell_coins (startPosition 10 (-5) 2 50) 0 [40] = some 2 ∧
     sell_coins (startPosition 10 (-5) 2 50) 0 [52] = none) := by
  refine ⟨?_, ?_, sell_coins_none_of_in_range, ?_, ?_, ?_⟩
  · intro pos p h1 h2
    unfold sellTrigger
    push_neg
    exact ⟨h2, h1⟩
  · intro pos lprice p rest hne htr
    simp [sell_coins, hne, htr]
  · norm_num [sell_coins, sellTrigger, startPosition]
  · norm_num [sell_coins, sellTrigger, startPosition]
  · norm_num [sell_coins, sellTrigger, startPosition]

/-- Witness for C4 at concrete positions and streams. -/
theorem C4_market_sell_loop_w :
    ((40 : ℚ) ≤ 52 ∧ (52 : ℚ) ≤ 55 ∧ ¬ sellTrigger ⟨2, 50, 55, 40⟩ 52) ∧
    ((56 : ℚ) ≠ 0 ∧ sellTrigger ⟨2, 50, 55, 40⟩ 56 ∧
      sell_coins ⟨2, 50, 55, 40⟩ 0 [56, 41] = some 2) ∧
    ((∀ p ∈ [42, 50, 42], (40 : ℚ) ≤ p ∧ p ≤ 55) ∧
      sell_coins ⟨2, 50, 55, 40⟩ 0 [42, 50, 42] = none) :=
  ⟨⟨by decide, by decide, C4_market_sell_loop.1 ⟨2, 50, 55, 40⟩ 52 (by decide) (by decide)⟩,
   ⟨by decide, by decide,
    C4_market_sell_loop.2.1 ⟨2, 50, 55, 40⟩ 0 56 [41] (by decide) (by decide)⟩,
   ⟨by decide, C4_market_sell_loop.2.2.1 ⟨2, 50, 55, 40⟩ 0 [42, 50, 42] (by decide)⟩⟩

/-- C1 counterexample: with only a LOT_SIZE filter of minQty 10, a remaining
quantity of 2 lies outside the market quantity band at the triggering price
56, yet the loop still fires the market sell of the full 2 units instead of
skipping the tick as the claim states. -/
theorem C1_cex :
    ¬ inBand (qty_bound lotTenFilters 56 true) 2 ∧
    sellTrigger ⟨2, 50, 55, 40⟩ 56 ∧
    sell_coins ⟨2, 50, 55, 40⟩ 0 [56] = some 2 := by
  refine ⟨?_, ?_, ?_⟩
  · intro h
    have := h.1
    norm_num [qty_bound, lotTenFilters] at this
  · unfold sellTrigger
    norm_num
  · norm_num [sell_coins, sellTrigger]

/-- C1 amended: the triggered market sell is fired for the full remaining
quantity with no re-clipping: even when the remaining quantity lies outside
the current market quantity band, the tick is not skipped and the sell is
issued. -/
theorem C1_no_reclip (f : Filters) (pos : Position) (lprice p : ℚ) (rest : List ℚ)
    (hne : p ≠ lprice) (htr : sellTrigger pos p)
    (hout : ¬ inBand (qty_bound f p true) pos.bqty) :
    sell_coins pos lprice (p :: rest) = some pos.bqty := by
  simp [sell_coins, hne, htr]

/-- Witness for the amended C1 at a concrete out-of-band state. -/
theorem C1_no_reclip_w :
    (56 : ℚ) ≠ 0 ∧ sellTrigger ⟨2, 50, 55, 40⟩ 56 ∧
    ¬ inBand (qty_bound lotTenFilters 56 true) 2 ∧
    sell_coins ⟨2, 50, 55, 40⟩ 0 [56] = some 2 :=
  ⟨by decide, by decide, by decide,
   C1_no_reclip lotTenFilters ⟨2, 50, 55, 40⟩ 0 56 [] (by decide) (by decide) (by decide)⟩

/-- Python min against a finite upper bound. -/
theorem minQT_coe (a q : ℚ) : minQT a (q : QInf) = min a q := rfl

/-- Python min against an infinite upper bound. -/
theorem minQT_top (a : ℚ) : minQT a (⊤ : QInf) = a := rfl

/-- minQT never exceeds its first argument. -/
theorem minQT_le_left (a : ℚ) (b : QInf) : minQT a b ≤ a := by
  cases b with
  | none => exact le_refl a
  | some q => exact min_le_left a q

/-- minQT is the identity when the bound is not exceeded. -/
theorem minQT_of_le (a : ℚ) (b : QInf) (h : (a : QInf) ≤ b) : minQT a b = a := by
  cases b with
  | none => rfl
  | some q => exact min_eq_left (WithTop.coe_le_coe.mp h)

/-- minQT clips to the bound when it is exceeded. -/
theorem minQT_of_lt (a : ℚ) (b : QInf) (h : b < (a : QInf)) : (minQT a b : QInf) = b := by
  cases b with
  | none => exact absurd h (not_top_lt)
  | some q =>
    have : q < a := WithTop.coe_lt_coe.mp h
    simp [minQT, min_eq_right this.le]
    rfl

/-- In the non-MARKET branch, the eligibility check sets the target price to
the Python min of the old target and the price-band high bound. -/
theorem check_tprice_eq (f : Filters) (st : SellType) (use_oco : Bool)
    (avg : ℚ) (pos : Position) (hst : st ≠ SellType.MARKET) :
    (check_sell_eligibility f st use_oco avg pos).1.tprice =
      minQT pos.tprice (price_bound f avg).2 := by
  unfold check_sell_eligibility
  rw [if_neg hst]
  cases use_oco <;> simp

/-- In the non-MARKET branch with OCO, the eligibility check sets the stop
price to the max of the old stop and the price-band low bound. -/
theorem check_sprice_eq (f : Filters) (st : SellType) (avg : ℚ) (pos : Position)
    (hst : st ≠ SellType.MARKET) :
    (check_sell_eligibility f st true avg pos).1.sprice =
      max pos.sprice (price_bound f avg).1 := by
  unfold check_sell_eligibility
  rw [if_neg hst]
  simp

/-- The eligibility check never changes the remaining quantity. -/
theorem check_bqty_eq (f : Filters) (st : SellType) (use_oco : Bool)
    (avg : ℚ) (pos : Position) :
    (check_sell_eligibility f st use_oco avg pos).1.bqty = pos.bqty := by
  unfold check_sell_eligibility
  split
  · rfl
  · cases use_oco <;> simp

/-- C10: when the sell strategy is not MARKET and an OCO order will be used,
the eligibility check silently raises the stop price to the price-band low
bound: afterwards it equals max(original stop, band low), so it is never
lowered but may end up above the configured stop level. -/
theorem C10_stop_raised (f : Filters) (st : SellType) (avg : ℚ) (pos : Position)
    (hst : st ≠ SellType.MARKET) :
    (check_sell_eligibility f st true avg pos).1.sprice =
      max pos.sprice (price_bound f avg).1 ∧
    pos.sprice ≤ (check_sell_eligibility f st true avg pos).1.sprice := by
  refine ⟨check_sprice_eq f st avg pos hst, ?_⟩
  rw [check_sprice_eq f st avg pos hst]
  exact le_max_left _ _

/-- Witness for C10 at a concrete state. -/
theorem C10_stop_raised_w :
    SellType.LIMIT ≠ SellType.MARKET ∧
    (check_sell_eligibility allNone SellType.LIMIT true 1 ⟨2, 50, 55, 40⟩).1.sprice =
      max (40 : ℚ) (price_bound allNone 1).1 :=
  ⟨by decide, (C10_stop_raised allNone SellType.LIMIT 1 ⟨2, 50, 55, 40⟩ (by decide)).1⟩

/-- C6 counterexample: with a PRICE_FILTER cap of 40 and mean buy price 50,
the eligibility check clips the target from 55 down to 40 — a price below the
buy price, violating every non-negative minimum-profit floor — yet the check
passes and the limit sell is placed immediately at 40 instead of being
skipped and retried. -/
theorem C6_cex :
    (check_sell_eligibility capFilters SellType.LIMIT false 50
        (startPosition 10 (-5) 2 50)).2 = true ∧
    (check_sell_eligibility capFilters SellType.LIMIT false 50
        (startPosition 10 (-5) 2 50)).1.tprice = 40 ∧
    (check_sell_eligibility capFilters SellType.LIMIT false 50
        (startPosition 10 (-5) 2 50)).1.tprice <
      (startPosition 10 (-5) 2 50).bprice ∧
    sell_coins_limit false (check_sell_eligibility capFilters SellType.LIMIT false 50
        (startPosition 10 (-5) 2 50)).1 = PlacedOrder.limit 2 40 := by
  have hpb : price_bound capFilters 50 = (0, ((40 : ℚ) : QInf)) := by
    unfold price_bound dnlimit uplimit dnflimit upflimit capFilters
    norm_num
  have hch : check_sell_eligibility capFilters SellType.LIMIT false 50
      (startPosition 10 (-5) 2 50) = (⟨2, 50, 40, (1 + (-5) / 100) * 50⟩, true) := by
    unfold check_sell_eligibility
    rw [if_neg (by decide : SellType.LIMIT ≠ SellType.MARKET)]
    simp only [hpb, startPosition, minQT_coe]
    norm_num [qty_bound, capFilters]
    exact_mod_cast (by norm_num : (2 : ℚ) ≤ 1000)
  rw [hch]
  refine ⟨rfl, rfl, ?_, rfl⟩
  norm_num [startPosition]

/-- C6 amended: before a limit/OCO placement the target price is
unconditionally clipped to the price-band high bound (and left unchanged when
it does not exceed it); there is no minimum-profit floor: whenever the
eligibility check passes, the sell is placed immediately at the clipped
target for the full quantity, regardless of how low the clipped price is. -/
theorem C6_clip_and_place (f : Filters) (st : SellType) (use_oco : Bool)
    (avg : ℚ) (pos : Position) (hst : st ≠ SellType.MARKET) :
    (((pos.tprice : QInf) ≤ (price_bound f avg).2 →
      (check_sell_eligibility f st use_oco avg pos).1.tprice = pos.tprice) ∧
     ((price_bound f avg).2 < (pos.tprice : QInf) →
      ((check_sell_eligibility f st use_oco avg pos).1.tprice : QInf) =
        (price_bound f avg).2)) ∧
    (check_sell_eligibility f st use_oco avg pos).1.tprice ≤ pos.tprice ∧
    orderPrice (sell_coins_limit use_oco (check_sell_eligibility f st use_oco avg pos).1) =
      (check_sell_eligibility f st use_oco avg pos).1.tprice ∧
    orderQty (sell_coins_limit use_oco (check_sell_eligibility f st use_oco avg pos).1) =
      pos.bqty := by
  refine ⟨⟨?_, ?_⟩, ?_, ?_, ?_⟩
  · intro h
    rw [check_tprice_eq f st use_oco avg pos hst]
    exact minQT_of_le _ _ h
  · intro h
    rw [check_tprice_eq f st use_oco avg pos hst]
    exact minQT_of_lt _ _ h
  · rw [check_tprice_eq f st use_oco avg pos hst]
    exact minQT_le_left _ _
  · cases use_oco <;> simp [sell_coins_limit, orderPrice]
  · cases use_oco <;>
      simp [sell_coins_limit, orderQty, check_bqty_eq f st _ avg pos]

/-- Witness for the amended C6 at a concrete state with no filters. -/
theorem C6_clip_and_place_w :
    SellType.LIMIT ≠ SellType.MARKET ∧
    (((55 : ℚ) : QInf) ≤ (price_bound allNone 1).2 ∧
      (check_sell_eligibility allNone SellType.LIMIT false 1
        ⟨2, 50, 55, 40⟩).1.tprice = 55) ∧
    orderQty (sell_coins_limit false (check_sell_eligibility allNone SellType.LIMIT false 1
        ⟨2, 50, 55, 40⟩).1) = 2 :=
  ⟨by decide,
   ⟨by simp [price_bound, uplimit, upflimit, allNone],
    (C6_clip_and_place allNone SellType.LIMIT false 1 ⟨2, 50, 55, 40⟩ (by decide)).1.1
      (by simp [price_bound, uplimit, upflimit, allNone])⟩,
   (C6_clip_and_place allNone SellType.LIMIT false 1 ⟨2, 50, 55, 40⟩ (by decide)).2.2.2⟩

/-- C5 counterexample: for avg = 1 with a PERCENT_PRICE filter whose
multipliers are both 1 (non-negative fields) and PRICE_FILTER absent, the 5
percent inward margins invert the band: low = 21/20 exceeds high = 19/20, so
low ≤ high does not hold for every filter combination. -/
theorem C5_cex :
    (0 : ℚ) < 1 ∧
    (price_bound pctOneFilters 1).1 = 21 / 20 ∧
    (price_bound pctOneFilters 1).2 = (((19 : ℚ) / 20 : ℚ) : QInf) ∧
    ¬ (((price_bound pctOneFilters 1).1 : QInf) ≤ (price_bound pctOneFilters 1).2) := by
  have h1 : (price_bound pctOneFilters 1).1 = 21 / 20 := by
    unfold price_bound dnlimit dnflimit pctOneFilters
    norm_num
  have h2 : (price_bound pctOneFilters 1).2 = (((19 : ℚ) / 20 : ℚ) : QInf) := by
    unfold price_bound uplimit upflimit pctOneFilters
    simp only [← WithTop.coe_mul]
    rw [min_eq_left le_top]
    norm_num
  refine ⟨by norm_num, h1, h2, ?_⟩
  rw [h1, h2, WithTop.coe_le_coe]
  norm_num

/-- C5 amended: when both PERCENT_PRICE and PRICE_FILTER are absent the band
is exactly (0, +inf); the low bound is never negative for non-negative
inputs; and low ≤ high does hold whenever the margined relative band and the
fixed band pairwise overlap — but not in general, as the counterexample
shows. -/
theorem C5_band (f : Filters) (avg : ℚ) :
    (f.percentPrice = none → f.priceFilter = none → price_bound f avg = (0, ⊤)) ∧
    (0 ≤ avg → (∀ pp, f.percentPrice = some pp → 0 ≤ pp.multiplierDown) →
      (∀ pf, f.priceFilter = some pf → 0 ≤ pf.minPrice) →
      0 ≤ (price_bound f avg).1) ∧
    ((((21 / 20 : ℚ) * dnlimit f avg : ℚ) : QInf) ≤
        ((19 / 20 : ℚ) : QInf) * uplimit f avg →
     (((21 / 20 : ℚ) * dnlimit f avg : ℚ) : QInf) ≤ upflimit f →
     ((dnflimit f : ℚ) : QInf) ≤ ((19 / 20 : ℚ) : QInf) * uplimit f avg →
     ((dnflimit f : ℚ) : QInf) ≤ upflimit f →
     (((price_bound f avg).1 : ℚ) : QInf) ≤ (price_bound f avg).2) := by
  refine ⟨?_, ?_, ?_⟩
  · intro hpp hpf
    unfold price_bound dnlimit uplimit dnflimit upflimit
    rw [hpp, hpf]
    norm_num
  · intro havg hpp hpf
    unfold price_bound
    refine le_max_iff.mpr ?_
    left
    have hdn : 0 ≤ dnlimit f avg := by
      unfold dnlimit
      cases hc : f.percentPrice with
      | none => exact le_refl 0
      | some pp => exact mul_nonneg havg (hpp pp hc)
    positivity
  · intro h1 h2 h3 h4
    unfold price_bound
    rw [WithTop.coe_max]
    exact max_le (le_min h1 h2) (le_min h3 h4)

/-- Witness for the amended C5 with both filters absent. -/
theorem C5_band_w :
    (allNone.percentPrice = none ∧ allNone.priceFilter = none ∧
      price_bound allNone 1 = (0, ⊤)) ∧
    ((0 : ℚ) ≤ 1 ∧ 0 ≤ (price_bound allNone 1).1) ∧
    ((((price_bound allNone 1).1 : ℚ) : QInf) ≤ (price_bound allNone 1).2) :=
  ⟨⟨rfl, rfl, (C5_band allNone 1).1 rfl rfl⟩,
   ⟨by decide, (C5_band allNone 1).2.1 (by decide)
      (fun pp h => nomatch h) (fun pf h => nomatch h)⟩,
   (C5_band allNone 1).2.2 (by simp [uplimit, allNone])
      (by simp [upflimit, allNone]) (by simp [uplimit, allNone])
      (by simp [upflimit, allNone])⟩

/-- The fill fold of market_order_status with an arbitrary accumulator. -/
theorem fills_avg_foldl (bqty : ℚ) (fills : List (ℚ × ℚ)) (a : ℚ) :
    fills.foldl (fun acc pq => acc + pq.1 * pq.2 / bqty) a =
      a + (fills.map (fun pq => pq.1 * pq.2)).sum / bqty := by
  induction fills generalizing a with
  | nil => simp
  | cons pq rest ih =>
    simp only [List.foldl_cons, List.map_cons, List.sum_cons]
    rw [ih, add_div, add_assoc]

/-- The average fill price is the sum of price times qty over the fills,
divided by the executed quantity. -/
theorem fills_avg_eq (bqty : ℚ) (fills : List (ℚ × ℚ)) :
    fills_avg bqty fills = (fills.map (fun pq => pq.1 * pq.2)).sum / bqty := by
  unfold fills_avg
  rw [fills_avg_foldl]
  ring

/-- C8: the average fill price of a market order is the quantity-weighted
mean of its fills whenever the executed quantity equals the total fill
quantity (for fills (10,1),(20,1) with executedQty 2 it is 15), and whenever
the computed average is zero the call raises instead of returning, so the
returned mean buy price is always nonzero. -/
theorem C8_market_order_status :
    market_order_status 2 [(10, 1), (20, 1)] = Except.ok (2, 15) ∧
    (∀ (bqty : ℚ) (fills : List (ℚ × ℚ)),
      bqty = (fills.map Prod.snd).sum →
      fills_avg bqty fills =
        (fills.map (fun pq => pq.1 * pq.2)).sum / (fills.map Prod.snd).sum) ∧
    (∀ (bqty : ℚ) (fills : List (ℚ × ℚ)), fills_avg bqty fills = 0 →
      ∀ r, market_order_status bqty fills ≠ Except.ok r) ∧
    (∀ (bqty : ℚ) (fills : List (ℚ × ℚ)) (q avg : ℚ),
      market_order_status bqty fills = Except.ok (q, avg) → avg ≠ 0) := by
  refine ⟨?_, ?_, ?_, ?_⟩
  · have hz : fills_avg 2 [((10 : ℚ), (1 : ℚ)), (20, 1)] = 15 := by
      rw [fills_avg_eq]
      norm_num
    unfold market_order_status
    rw [hz]
    norm_num
  · intro bqty fills h
    rw [fills_avg_eq, ← h]
  · intro bqty fills h r
    unfold market_order_status
    split <;> simp_all
  · intro bqty fills q avg h
    unfold market_order_status at h
    split at h
    · exact absurd h (by simp)
    · split at h
      · exact absurd h (by simp)
      · rename_i hne
        injection h with h
        injection h with h1 h2
        rw [← h2]
        exact hne

/-- Witness for C8 at concrete fills. -/
theorem C8_market_order_status_w :
    ((2 : ℚ) = ([((10 : ℚ), (2 : ℚ))].map Prod.snd).sum ∧
      fills_avg 2 [((10 : ℚ), (2 : ℚ))] =
        ([((10 : ℚ), (2 : ℚ))].map (fun pq => pq.1 * pq.2)).sum /
          ([((10 : ℚ), (2 : ℚ))].map Prod.snd).sum) ∧
    (fills_avg 3 ([] : List (ℚ × ℚ)) = 0 ∧
      market_order_status 3 ([] : List (ℚ × ℚ)) ≠ Except.ok (3, 0)) :=
  ⟨⟨by simp, C8_market_order_status.2.1 2 [((10 : ℚ), (2 : ℚ))] (by simp)⟩,
   ⟨rfl, C8_market_order_status.2.2.1 3 ([] : List (ℚ × ℚ)) rfl (3, 0)⟩⟩

/-- The fuel argument of decDigitsAux is irrelevant once it covers n. -/
theorem decDigitsAux_fuel (n : Nat) :
    ∀ f1 f2, n ≤ f1 → n ≤ f2 → decDigitsAux f1 n = decDigitsAux f2 n := by
  induction n using Nat.strong_induction_on with
  | _ n ih =>
    intro f1 f2 h1 h2
    cases n with
    | zero => cases f1 <;> cases f2 <;> rfl
    | succ m =>
      cases f1 with
      | zero => omega
      | succ g1 =>
        cases f2 with
        | zero => omega
        | succ g2 =>
          simp only [decDigitsAux]
          congr 1
          have hlt : (m + 1) / 10 < m + 1 := Nat.div_lt_self (Nat.succ_pos m) (by norm_num)
          exact ih ((m + 1) / 10) hlt g1 g2 (by omega) (by omega)

/-- Unfolding equation of decDigits for a positive number. -/
theorem decDigits_pos (n : Nat) (h : n ≠ 0) :
    decDigits n = n % 10 :: decDigits (n / 10) := by
  unfold decDigits
  cases n with
  | zero => exact absurd rfl h
  | succ m =>
    simp only [decDigitsAux]
    congr 1
    have hlt : (m + 1) / 10 < m + 1 := Nat.div_lt_self (Nat.succ_pos m) (by norm_num)
    exact decDigitsAux_fuel ((m + 1) / 10) m ((m + 1) / 10) (by omega) (le_refl _)

/-- The difference between the digit count and the digit count after
stripping trailing zeros is exactly the 10-adic multiplicity: it counts the
trailing zero digits of a positive number. -/
theorem digit_strip_char (n : Nat) :
    n ≠ 0 →
    strippedLen n ≤ digitLen n ∧
    10 ^ (digitLen n - strippedLen n) ∣ n ∧
    ¬ 10 ^ (digitLen n - strippedLen n + 1) ∣ n := by
  induction n using Nat.strong_induction_on with
  | _ n ih =>
    intro h
    have hdl : digitLen n = 1 + digitLen (n / 10) := by
      unfold digitLen
      rw [decDigits_pos n h]
      simp [Nat.add_comm]
    by_cases hd : n % 10 = 0
    · have h10 : 10 ∣ n := Nat.dvd_of_mod_eq_zero hd
      have hge : 10 ≤ n := Nat.le_of_dvd (Nat.pos_of_ne_zero h) h10
      have hq : n / 10 ≠ 0 := by omega
      have hsl : strippedLen n = strippedLen (n / 10) := by
        unfold strippedLen
        rw [decDigits_pos n h, List.dropWhile_cons]
        simp [hd]
      obtain ⟨ihle, ihdvd, ihndvd⟩ := ih (n / 10) (Nat.div_lt_self (Nat.pos_of_ne_zero h) (by norm_num)) hq
      have hk : digitLen n - strippedLen n = (digitLen (n / 10) - strippedLen (n / 10)) + 1 := by
        omega
      have hn : n = n / 10 * 10 := (Nat.div_mul_cancel h10).symm
      set k2 := digitLen (n / 10) - strippedLen (n / 10) with hk2
      refine ⟨by omega, ?_, ?_⟩
      · rw [hk]
        obtain ⟨c, hc⟩ := ihdvd
        refine ⟨c, ?_⟩
        calc n = n / 10 * 10 := hn
        _ = 10 ^ k2 * c * 10 := by rw [hc]
        _ = 10 ^ (k2 + 1) * c := by ring
      · rw [hk]
        intro hcon
        obtain ⟨c, hc⟩ := hcon
        apply ihndvd
        refine ⟨c, ?_⟩
        apply Nat.eq_of_mul_eq_mul_right (by norm_num : 0 < 10)
        calc n / 10 * 10 = n := Nat.div_mul_cancel h10
        _ = 10 ^ (k2 + 1 + 1) * c := hc
        _ = 10 ^ (k2 + 1) * c * 10 := by ring
    · have hsl : strippedLen n = digitLen n := by
        unfold strippedLen digitLen
        rw [decDigits_pos n h, List.dropWhile_cons]
        simp [hd]
      refine ⟨le_of_eq hsl, ?_, ?_⟩
      · rw [hsl, Nat.sub_self, pow_zero]
        exact one_dvd n
      · rw [hsl, Nat.sub_self, zero_add, pow_one]
        intro hcon
        obtain ⟨c, hc⟩ := hcon
        omega

/-- C3 counterexample: for stepSize "0.00100000" with asset precision 8 the
code derives tick precision 3 (tsize = 100000 has five trailing zeros, and
8 - 5 = 3), not 5 as the claim's example states. -/
theorem C3_cex :
    tickFrom 8 "0.00100000" 8 = 3 ∧ tickFrom 8 "0.00100000" 8 ≠ 5 := by
  refine ⟨?_, ?_⟩ <;> decide

/-- C3 amended: tick-precision derivation is a deterministic function of the
step-size string and the asset precision; for stepSize "0.00100000" with
precision 8 it derives 3 (not 5); when tsize = 0 the default is retained; and
when tsize is nonzero the derived precision is p minus the number of trailing
zero digits of tsize, the trailing-zero count being characterised by maximal
divisibility by a power of 10. -/
theorem C3_tick_derivation :
    tickFrom 8 "0.00100000" 8 = 3 ∧
    (∀ (d : Int) (s : String) (p : Nat), tsize s p = 0 → tickFrom d s p = d) ∧
    (∀ (d : Int) (s : String) (p : Nat), tsize s p ≠ 0 →
      ∃ z : Nat, tickFrom d s p = (p : Int) - z ∧
        10 ^ z ∣ tsize s p ∧ ¬ 10 ^ (z + 1) ∣ tsize s p) := by
  refine ⟨by decide, ?_, ?_⟩
  · intro d s p hz
    unfold tickFrom
    rw [if_pos hz]
  · intro d s p hnz
    obtain ⟨hle, hdvd, hndvd⟩ := digit_strip_char (tsize s p) hnz
    refine ⟨digitLen (tsize s p) - strippedLen (tsize s p), ?_, hdvd, hndvd⟩
    unfold tickFrom
    rw [if_neg hnz]
    omega

/-- Witness for the amended C3 at concrete step-size strings. -/
theorem C3_tick_derivation_w :
    (tsize "0.000" 2 = 0 ∧ tickFrom 8 "0.000" 2 = 8) ∧
    (tsize "0.50" 2 ≠ 0 ∧
      ∃ z : Nat, tickFrom 8 "0.50" 2 = (2 : Int) - z ∧
        10 ^ z ∣ tsize "0.50" 2 ∧ ¬ 10 ^ (z + 1) ∣ tsize "0.50" 2) :=
  ⟨⟨by decide, C3_tick_derivation.2.1 8 "0.000" 2 (by decide)⟩,
   ⟨by decide, C3_tick_derivation.2.2 8 "0.50" 2 (by decide)⟩⟩
